import Mathlib

/-!
Datakernel front-end OT examples: chat operations and the editor service

Embedding of

* `examples/global-ot-chat/front/src/modules/chat/ot/ChatOTOperation.js`
  (the chat operation: `apply`, `isEmpty`, `invert`, `EMPTY`), and
* `examples/global-ot-editor/front/src/modules/editor/EditorService.js`
  (the editor session controller: `init`, the interval callback, `stop`,
  `insert`, `delete`, `replace`, `_applyOperations`).

The chat document is a JavaScript `Set` of strings, embedded as `Finset String`.
Asynchronous functions are embedded by their suspension points: every `await`
splits a function into the part that runs up to the suspension and the part
that runs when the awaited call completes.
-/

namespace Chat

/-- Modelled from the spec: the `ChatMessage` class (`./ChatMessage`) is imported by
`ChatOTOperation.js` but its file is absent.  Its constructor takes three values,
as in `new ChatMessage(0, '', '')`: a numeric timestamp, an author and a content. -/
structure ChatMessage where
  timestamp : Nat
  author : String
  content : String
deriving DecidableEq, Repr

/-- Modelled from the spec: `ChatMessage.isEmpty()` is absent from the sources; the spec
describes an empty operation as one with an "empty message payload". -/
def ChatMessage.isEmpty (m : ChatMessage) : Bool :=
  m.content.data.isEmpty

/-- One lowercase hexadecimal digit, as used by the `\u00xx` escapes of `JSON.stringify`. -/
def hexDigit (n : Nat) : Char :=
  if n < 10 then Char.ofNat (48 + n) else Char.ofNat (87 + n)

/-- The characters `JSON.stringify` emits for one character of a string value. -/
def quoteJSONChar (c : Char) : List Char :=
  if c = '\"' then ['\\', '\"']
  else if c = '\\' then ['\\', '\\']
  else if c = '\x08' then ['\\', 'b']
  else if c = '\x0c' then ['\\', 'f']
  else if c = '\n' then ['\\', 'n']
  else if c = '\r' then ['\\', 'r']
  else if c = '\t' then ['\\', 't']
  else if c.toNat < 32 then ['\\', 'u', '0', '0', hexDigit (c.toNat / 16), hexDigit (c.toNat % 16)]
  else [c]

/-- The text `JSON.stringify` produces for a string value. -/
def quoteJSONString (s : String) : String :=
  String.mk ('\"' :: (s.data.flatMap quoteJSONChar ++ ['\"']))

/-- The text `JSON.stringify` produces for a `ChatMessage` object: its own enumerable
properties in creation order. -/
def ChatMessage.toJSON (m : ChatMessage) : String :=
  "\x7b\"timestamp\":" ++ toString m.timestamp ++ ",\"author\":" ++ quoteJSONString m.author
    ++ ",\"content\":" ++ quoteJSONString m.content ++ "\x7d"

/-- The class `ChatOTOperation` (lines 3-7): a message and a `remove` flag. -/
structure ChatOTOperation where
  message : ChatMessage
  remove : Bool
deriving DecidableEq, Repr

namespace ChatOTOperation

/-- Line 9: `static EMPTY = new ChatOTOperation(new ChatMessage(0, '', ''), false)`. -/
def EMPTY : ChatOTOperation := ⟨⟨0, "", ""⟩, false⟩

/-- Lines 12-15: `JSON.stringify({message: this.message, remove: this.remove})`. -/
def key (op : ChatOTOperation) : String :=
  "\x7b\"message\":" ++ op.message.toJSON ++ ",\"remove\":"
    ++ (if op.remove then "true" else "false") ++ "\x7d"

/-- Lines 11-24: `apply(state)`; `state.delete(key)` when `remove` is set, `state.add(key)`
otherwise, and the set is returned. -/
def apply (op : ChatOTOperation) (state : Finset String) : Finset String :=
  if op.remove then state.erase op.key else insert op.key state

/-- Lines 26-28: `isEmpty()` delegates to the message. -/
def isEmpty (op : ChatOTOperation) : Bool :=
  op.message.isEmpty

/-- Lines 30-32: `invert()` keeps the message and flips the flag. -/
def invert (op : ChatOTOperation) : ChatOTOperation :=
  ⟨op.message, !op.remove⟩

/-- An operation is valid on a set when it is an add whose key is not yet in the set,
or a remove whose key is in the set. -/
def valid (op : ChatOTOperation) (d : Finset String) : Prop :=
  if op.remove then op.key ∈ d else op.key ∉ d

instance (op : ChatOTOperation) (d : Finset String) : Decidable (valid op d) := by
  unfold valid; infer_instance

/-- Applying a sequence of operations in order. -/
def applyAll (ops : List ChatOTOperation) (d : Finset String) : Finset String :=
  ops.foldl (fun s op => op.apply s) d

end ChatOTOperation

end Chat

namespace Editor

/-- Modelled from the spec: the failures a state manager call can signal (the manager and
its error classes are absent from the sources; the spec names these three). -/
inductive OTError
  | TransportError
  | ContentMismatchError
  | OutOfRangeError
deriving DecidableEq, Repr

/-- The two operation classes imported at lines 2-3; `EditorService` only constructs them,
as `new InsertOperation(position, content)` and `new DeleteOperation(position, content)`. -/
inductive Operation
  | InsertOperation (position : Nat) (content : String)
  | DeleteOperation (position : Nat) (content : String)
deriving DecidableEq, Repr

/-- The synchronous methods of the state manager handed to the constructor (line 9), over
the manager's internal state `M`.  `add` returns the manager after the call and whether
the call threw. -/
structure OTStateManager (M : Type) where
  add : M → List Operation → M × Except OTError Unit
  getState : M → String
  getRevision : M → Nat

/-- The state object published by the service: `content` and `ready` from the constructor
(lines 10-13), `commitsGraph` once the interval callback has published one (line 59). -/
structure State (G : Type) where
  content : String
  ready : Bool
  commitsGraph : Option G
deriving DecidableEq, Repr

/-- The argument of a `setState` call: the fields it lists. -/
structure Patch (G : Type) where
  content : Option String
  ready : Option Bool
  commitsGraph : Option G

/-- One chain of `init()` calls: a call made by the user of the service together with the
calls line 28 makes after it.  The chain is suspended at `await checkout()` (line 24),
or at `await this._reconnectDelay()` (line 27) with its timer armed or cleared, or it
has run lines 32-63 and returned. -/
inductive InitChain
  | awaitingCheckout
  | awaitingReconnect (armed : Bool)
  | finished
deriving DecidableEq, Repr

/-- Whether a chain of `init()` calls has returned. -/
def InitChain.isFinished : InitChain → Bool
  | InitChain.finished => true
  | _ => false

/-- One sync loop: the interval registered at line 39 by one `init()` call, with the
variable `syncing` that this call declared at line 38.

* `armed`: the interval has not been cleared;
* `syncing`: the current value of the variable;
* `pendingSyncs`: invocations of this loop's callback suspended at `await sync()`
  (line 47). -/
structure SyncLoop where
  armed : Bool
  syncing : Bool
  pendingSyncs : Nat
deriving DecidableEq, Repr

/-- An `EditorService` object together with its suspended asynchronous calls.

* `state`, `setStateCalls`: the published state and the number of `setState` calls;
* `_editorOTStateManager`: the manager's current internal state;
* `_reconnectTimeout`: the timer handle stored in that field, named by the chain of
  `init()` calls that armed the timer (`none` for `null`);
* `_syncInterval`: the interval handle stored in that field, named by its sync loop
  (`none` for `null`);
* `chains`: the chains of `init()` calls, one for each call by the user, in call order;
* `loops`: the sync loops, in the order in which line 39 registered them;
* `pendingGraphs`: one entry for each `getGraph(revision)` call made so far, in call order:
  `some revision` while the callback invocation that made it is suspended at line 57,
  holding that value in its local `revision`, and `none` once it has resumed;
* `checkoutCalls`, `syncCalls`, `addCalls`, `graphCalls`: the calls made so far to
  `checkout()`, `sync()`, `add(operations)` and `getGraph(revision)`. -/
structure EditorService (M G : Type) where
  state : State G
  setStateCalls : Nat
  _editorOTStateManager : M
  _reconnectTimeout : Option Nat
  _syncInterval : Option Nat
  chains : List InitChain
  loops : List SyncLoop
  pendingGraphs : List (Option Nat)
  checkoutCalls : Nat
  syncCalls : Nat
  addCalls : List (List Operation)
  graphCalls : List Nat

/-- The settled value of a promise. -/
inductive Promise (α : Type)
  | fulfilled (value : α)
  | rejected (reason : OTError)
deriving DecidableEq, Repr

/-- How a synchronous call ends: it returns, or it throws. -/
inductive Completion (α : Type)
  | normal (value : α)
  | throw (reason : OTError)
deriving DecidableEq, Repr

/-- The calls a user of the service makes to edit the document. -/
inductive Edit
  | insert (position : Nat) (content : String)
  | delete (position : Nat) (content : String)
  | replace (position : Nat) (oldContent newContent : String)
deriving DecidableEq, Repr

/-- What can happen to a service: calls from its user (`init`, `stop`, an edit), the
reconnect timer of a chain or the interval of a loop firing, an asynchronous call
completing (the `checkout()` of a chain, the `sync()` of a loop, a `getGraph` call), and
the manager's internal state moving while a call to it is in flight. -/
inductive Event (M G : Type)
  | init
  | stop
  | edit (call : Edit)
  | checkoutResolved (chain : Nat)
  | checkoutRejected (chain : Nat) (err : OTError)
  | reconnectFired (chain : Nat)
  | tick (loop : Nat)
  | syncResolved (loop : Nat)
  | syncRejected (loop : Nat) (err : OTError)
  | graphResolved (index : Nat) (commitsGraph : G)
  | graphRejected (index : Nat) (err : OTError)
  | managerChanged (manager : M)

/-- `clearTimeout(handle)`: the timer the handle names is disarmed if it is still armed. -/
def clearTimeout (handle : Option Nat) (chains : List InitChain) : List InitChain :=
  match handle with
  | some chain =>
    if chains[chain]? = some (InitChain.awaitingReconnect true)
    then chains.set chain (InitChain.awaitingReconnect false) else chains
  | none => chains

/-- `clearInterval(handle)`: the interval the handle names is disarmed. -/
def clearInterval (handle : Option Nat) (loops : List SyncLoop) : List SyncLoop :=
  match handle with
  | some loop =>
    match loops[loop]? with
    | some l => loops.set loop { l with armed := false }
    | none => loops
  | none => loops

namespace EditorService

variable {M G : Type}

/-- Lines 9-19: the constructor.  Both handles are `null` and nothing is in flight. -/
def new (editorOTStateManager : M) : EditorService M G where
  state := ⟨"", false, none⟩
  setStateCalls := 0
  _editorOTStateManager := editorOTStateManager
  _reconnectTimeout := none
  _syncInterval := none
  chains := []
  loops := []
  pendingGraphs := []
  checkoutCalls := 0
  syncCalls := 0
  addCalls := []
  graphCalls := []

/-- Whether the interval of a loop is armed. -/
def armedOf (s : EditorService M G) (loop : Nat) : Bool :=
  match s.loops[loop]? with
  | some l => l.armed
  | none => false

/-- The variable `syncing` of a loop. -/
def syncingOf (s : EditorService M G) (loop : Nat) : Bool :=
  match s.loops[loop]? with
  | some l => l.syncing
  | none => false

/-- The number of `sync()` calls of a loop that are in flight. -/
def pendingSyncsOf (s : EditorService M G) (loop : Nat) : Nat :=
  match s.loops[loop]? with
  | some l => l.pendingSyncs
  | none => 0

/-- The number of `sync()` calls in flight, over all loops. -/
def outstandingSyncs (s : EditorService M G) : Nat :=
  (s.loops.map SyncLoop.pendingSyncs).sum

/-- Modelled from the spec: `setState` of the absent `Service` base class; the listed fields
replace those of the published state. -/
def setState (patch : Patch G) (s : EditorService M G) : EditorService M G :=
  { s with
    state := ⟨patch.content.getD s.state.content, patch.ready.getD s.state.ready,
      match patch.commitsGraph with
      | some g => some g
      | none => s.state.commitsGraph⟩
    setStateCalls := s.setStateCalls + 1 }

/-- Lines 21-24: `init()` called by the user, up to its first suspension; a new chain
starts and `checkout()` is called. -/
def init (s : EditorService M G) : EditorService M G :=
  { s with chains := s.chains ++ [InitChain.awaitingCheckout],
           checkoutCalls := s.checkoutCalls + 1 }

/-- Lines 32-63: `init()` resumed after `checkout()` succeeded; the state is published, a
new variable `syncing` starts as `false`, a new interval is registered and its handle
stored in `_syncInterval`, replacing the handle stored before. -/
def init_afterCheckout (I : OTStateManager M) (chain : Nat) (s : EditorService M G) :
    EditorService M G :=
  let s1 := setState ⟨some (I.getState s._editorOTStateManager), some true, none⟩ s
  { s1 with loops := s1.loops ++ [⟨true, false, 0⟩],
            _syncInterval := some s1.loops.length,
            chains := s1.chains.set chain InitChain.finished }

/-- Lines 97-101: `_reconnectDelay()` arms a reconnect timer and stores its handle in
`_reconnectTimeout`, replacing the handle stored before. -/
def _reconnectDelay (chain : Nat) (s : EditorService M G) : EditorService M G :=
  { s with _reconnectTimeout := some chain,
           chains := s.chains.set chain (InitChain.awaitingReconnect true) }

/-- Lines 25-27: `init()` resumed after `checkout()` failed; the error is written to the
console and the call suspends on the delay. -/
def init_afterCheckoutFailed (chain : Nat) (s : EditorService M G) : EditorService M G :=
  _reconnectDelay chain s

/-- Line 28 and lines 21-24 of the nested call: the reconnect timer has fired and `init()`
is called again, which calls `checkout()`. -/
def init_afterReconnectDelay (chain : Nat) (s : EditorService M G) : EditorService M G :=
  { s with chains := s.chains.set chain InitChain.awaitingCheckout,
           checkoutCalls := s.checkoutCalls + 1 }

/-- Lines 39-47: the interval callback of a loop up to its first suspension.  It returns at
once when the loop's `syncing` is set; otherwise it sets `syncing` and calls `sync()`. -/
def intervalCallback (loop : Nat) (s : EditorService M G) : EditorService M G :=
  match s.loops[loop]? with
  | none => s
  | some l =>
    if l.syncing then s
    else { s with
      loops := s.loops.set loop { l with syncing := true, pendingSyncs := l.pendingSyncs + 1 }
      syncCalls := s.syncCalls + 1 }

/-- Lines 48-57: the interval callback of a loop resumed when `sync()` completes.  The
`finally` block clears the loop's `syncing` in both cases.  After a failure the error
leaves the callback, whose promise is rejected; the timer that called it does not look
at that promise.  After a success `content` is published, the revision is read and
`getGraph(revision)` called. -/
def intervalCallback_afterSync (I : OTStateManager M) (loop : Nat)
    (outcome : Except OTError Unit) (s : EditorService M G) : EditorService M G :=
  match s.loops[loop]? with
  | none => s
  | some l =>
    let s1 := { s with
      loops := s.loops.set loop { l with syncing := false, pendingSyncs := l.pendingSyncs - 1 } }
    match outcome with
    | Except.error _ => s1
    | Except.ok _ =>
      let s2 := setState ⟨some (I.getState s1._editorOTStateManager), none, none⟩ s1
      let revision := I.getRevision s2._editorOTStateManager
      { s2 with graphCalls := s2.graphCalls ++ [revision],
                pendingGraphs := s2.pendingGraphs ++ [some revision] }

/-- Lines 57-62: the interval callback resumed when its `getGraph(revision)` call, the one
numbered `index`, completes; the graph is published when the manager still reports
`revision`.  Nothing happens for a call that was never made or has already completed. -/
def intervalCallback_afterGraph (I : OTStateManager M) (index : Nat)
    (outcome : Except OTError G) (s : EditorService M G) : EditorService M G :=
  match s.pendingGraphs[index]? with
  | some (some revision) =>
    let s1 := { s with pendingGraphs := s.pendingGraphs.set index none }
    match outcome with
    | Except.error _ => s1
    | Except.ok commitsGraph =>
      if revision = I.getRevision s1._editorOTStateManager then
        setState ⟨none, none, some commitsGraph⟩ s1
      else s1
  | _ => s

/-- Lines 66-69: `stop()` calls `clearTimeout(this._reconnectTimeout)` and
`clearInterval(this._syncInterval)`; the two fields keep their handles. -/
def stop (s : EditorService M G) : EditorService M G :=
  { s with chains := clearTimeout s._reconnectTimeout s.chains,
           loops := clearInterval s._syncInterval s.loops }

/-- Lines 90-95: `_applyOperations(operations)`, an `async` function without `await`: its
body runs at the call, and what it throws becomes the rejection of the promise it
returns. -/
def _applyOperations (I : OTStateManager M) (operations : List Operation)
    (s : EditorService M G) : EditorService M G × Promise Unit :=
  let r := I.add s._editorOTStateManager operations
  let s1 := { s with _editorOTStateManager := r.1, addCalls := s.addCalls ++ [operations] }
  match r.2 with
  | Except.error e => (s1, Promise.rejected e)
  | Except.ok _ =>
    (setState ⟨some (I.getState s1._editorOTStateManager), none, none⟩ s1, Promise.fulfilled ())

/-- Lines 71-75: `insert(position, content)`; the promise of `_applyOperations` is neither
returned nor awaited. -/
def insert (I : OTStateManager M) (position : Nat) (content : String)
    (s : EditorService M G) : EditorService M G × Completion Unit :=
  ((_applyOperations I [Operation.InsertOperation position content] s).1, Completion.normal ())

/-- Lines 77-81: `delete(position, content)`. -/
def delete (I : OTStateManager M) (position : Nat) (content : String)
    (s : EditorService M G) : EditorService M G × Completion Unit :=
  ((_applyOperations I [Operation.DeleteOperation position content] s).1, Completion.normal ())

/-- Lines 83-88: `replace(position, oldContent, newContent)`. -/
def replace (I : OTStateManager M) (position : Nat) (oldContent newContent : String)
    (s : EditorService M G) : EditorService M G × Completion Unit :=
  ((_applyOperations I [Operation.DeleteOperation position oldContent,
      Operation.InsertOperation position newContent] s).1, Completion.normal ())

/-- The method an `Edit` stands for. -/
def perform (I : OTStateManager M) (call : Edit) (s : EditorService M G) :
    EditorService M G × Completion Unit :=
  match call with
  | Edit.insert p c => insert I p c s
  | Edit.delete p c => delete I p c s
  | Edit.replace p o n => replace I p o n s

/-- One event.  Calls by the user (`init`, `stop`, an edit) can always happen.  A timer
that is not armed does not fire and a call that is not in flight does not complete:
such an event leaves the state as it is. -/
def step (I : OTStateManager M) (s : EditorService M G) : Event M G → EditorService M G
  | Event.init => init s
  | Event.stop => stop s
  | Event.edit call => (perform I call s).1
  | Event.checkoutResolved chain =>
    if s.chains[chain]? = some InitChain.awaitingCheckout
    then init_afterCheckout I chain s else s
  | Event.checkoutRejected chain _ =>
    if s.chains[chain]? = some InitChain.awaitingCheckout
    then init_afterCheckoutFailed chain s else s
  | Event.reconnectFired chain =>
    if s.chains[chain]? = some (InitChain.awaitingReconnect true)
    then init_afterReconnectDelay chain s else s
  | Event.tick loop => if s.armedOf loop then intervalCallback loop s else s
  | Event.syncResolved loop =>
    if 0 < s.pendingSyncsOf loop
    then intervalCallback_afterSync I loop (Except.ok ()) s else s
  | Event.syncRejected loop err =>
    if 0 < s.pendingSyncsOf loop
    then intervalCallback_afterSync I loop (Except.error err) s else s
  | Event.graphResolved index g => intervalCallback_afterGraph I index (Except.ok g) s
  | Event.graphRejected index err => intervalCallback_afterGraph I index (Except.error err) s
  | Event.managerChanged m => { s with _editorOTStateManager := m }

/-- The operations an `Edit` hands to `add`, as built at lines 72-74, 78-80 and 84-87. -/
def operationsOf : Edit → List Operation
  | Edit.insert p c => [Operation.InsertOperation p c]
  | Edit.delete p c => [Operation.DeleteOperation p c]
  | Edit.replace p o n => [Operation.DeleteOperation p o, Operation.InsertOperation p n]

/-- Whether an event is the completion of the `getGraph` call numbered `index`. -/
def completesGraph (index : Nat) : Event M G → Bool
  | Event.graphResolved i _ => i = index
  | Event.graphRejected i _ => i = index
  | _ => false

/-- Whether an event is a call of `init()` by the user. -/
def isInit : Event M G → Bool
  | Event.init => true
  | _ => false

/-- The number of `init()` calls the user makes in a list of events. -/
def initCalls (events : List (Event M G)) : Nat :=
  events.countP isInit

/-- A run: the events of a list, one after the other. -/
def run (I : OTStateManager M) (s : EditorService M G) (events : List (Event M G)) :
    EditorService M G :=
  events.foldl (step I) s

/-- The invariant of a sync loop: `syncing` is set exactly while one `sync()` of the loop
is in flight. -/
def LoopsOk (loops : List SyncLoop) : Prop :=
  ∀ l ∈ loops, l.pendingSyncs = (if l.syncing then 1 else 0)

/-- Every chain of `init()` calls has returned and every interval is cleared. -/
def Quiet (s : EditorService M G) : Prop :=
  (∀ c ∈ s.chains, c = InitChain.finished) ∧ (∀ l ∈ s.loops, l.armed = false)

end EditorService

/-- Modelled from the spec: a state manager for a text document (the manager class is
absent from the sources): the optimistic snapshot, the confirmed revision and the queue
of pending operations. -/
structure TextManager where
  snapshot : String
  revision : Nat
  pending : List Operation
deriving DecidableEq, Repr

/-- Modelled from the spec: `apply` of the operation algebra on a text document.  An insert
beyond the end, or a delete reaching beyond the end, is an `OutOfRangeError`; a delete
whose content differs from the text at its range is a `ContentMismatchError`. -/
def applyOperation (doc : List Char) : Operation → Except OTError (List Char)
  | Operation.InsertOperation p c =>
    if doc.length < p then Except.error OTError.OutOfRangeError
    else Except.ok (doc.take p ++ c.data ++ doc.drop p)
  | Operation.DeleteOperation p c =>
    if doc.length < p + c.data.length then Except.error OTError.OutOfRangeError
    else if (doc.drop p).take c.data.length ≠ c.data then Except.error OTError.ContentMismatchError
    else Except.ok (doc.take p ++ doc.drop (p + c.data.length))

/-- Folding a sequence of operations into a document, stopping at the first failure. -/
def applyOperations (doc : List Char) : List Operation → Except OTError (List Char)
  | [] => Except.ok doc
  | op :: rest =>
    match applyOperation doc op with
    | Except.error e => Except.error e
    | Except.ok doc1 => applyOperations doc1 rest

/-- Modelled from the spec: the manager's `add`, `getState` and `getRevision`; `add` is all
or nothing. -/
def textManager : OTStateManager TextManager where
  add := fun m ops =>
    match applyOperations m.snapshot.data ops with
    | Except.error e => (m, Except.error e)
    | Except.ok doc => (⟨String.mk doc, m.revision, m.pending ++ ops⟩, Except.ok ())
  getState := fun m => m.snapshot
  getRevision := fun m => m.revision

end Editor

namespace Chat.ChatOTOperation

/-- The serialised key of an add never equals the serialised key of a remove: the two
texts end in `false}` and `true}`. -/
theorem key_add_ne_key_remove (m m' : ChatMessage) :
    key ⟨m, false⟩ ≠ key ⟨m', true⟩ := by
  intro h
  have h1 := congrArg (fun s => s.data.reverse) h
  simp [key, String.data_append, List.reverse_append] at h1

/-- The key of an operation differs from the key of its inverse. -/
theorem key_invert_ne (op : ChatOTOperation) : key (invert op) ≠ key op := by
  obtain ⟨m, r⟩ := op
  cases r
  · exact fun h => key_add_ne_key_remove m m h.symm
  · exact key_add_ne_key_remove m m

/-- On every valid pair the inverse fails to restore the set: the inverse touches a
different key than the operation did. -/
theorem apply_invert_ne (op : ChatOTOperation) (d : Finset String) (h : valid op d) :
    apply (invert op) (apply op d) ≠ d := by
  obtain ⟨m, r⟩ := op
  have hne := key_invert_ne ⟨m, r⟩
  cases r
  · simp only [valid, invert, apply, Bool.not_false, if_true, Bool.false_eq_true, if_false]
      at h hne ⊢
    intro heq
    apply h
    rw [← heq]
    exact Finset.mem_erase.mpr ⟨fun e => hne e.symm, Finset.mem_insert_self _ _⟩
  · simp only [valid, invert, apply, Bool.not_true, if_true, Bool.false_eq_true, if_false]
      at h hne ⊢
    intro heq
    have h2 : key ⟨m, true⟩ ∈ insert (key ⟨m, false⟩) (d.erase (key ⟨m, true⟩)) := by
      rw [heq]; exact h
    rcases Finset.mem_insert.mp h2 with h3 | h3
    · exact hne h3.symm
    · exact (Finset.not_mem_erase _ _) h3

/-- Every key held by a set built from operations is the key of an add. -/
theorem applyAll_keys (ops : List ChatOTOperation) (d : Finset String)
    (hd : ∀ k ∈ d, ∃ m : ChatMessage, k = key ⟨m, false⟩) :
    ∀ k ∈ applyAll ops d, ∃ m : ChatMessage, k = key ⟨m, false⟩ := by
  induction ops generalizing d with
  | nil => simpa [applyAll] using hd
  | cons op rest ih =>
    have hstep : ∀ k ∈ op.apply d, ∃ m : ChatMessage, k = key ⟨m, false⟩ := by
      intro k hk
      obtain ⟨m, r⟩ := op
      cases r
      · simp only [apply, Bool.false_eq_true, if_false] at hk
        rcases Finset.mem_insert.mp hk with h | h
        · exact ⟨m, h⟩
        · exact hd k h
      · simp only [apply, if_true] at hk
        exact hd k (Finset.mem_of_mem_erase hk)
    simpa [applyAll] using ih (op.apply d) hstep

/-- C1 (as found in the code): for the add of message `(1, "alice", "hi")` on the empty set,
which is a valid pair, applying the operation and then its inverse leaves the added key
in the set instead of giving back the empty set. -/
theorem C1_invert_does_not_undo :
    valid ⟨⟨1, "alice", "hi"⟩, false⟩ ∅ ∧
    apply (invert ⟨⟨1, "alice", "hi"⟩, false⟩) (apply ⟨⟨1, "alice", "hi"⟩, false⟩ ∅)
      = {key ⟨⟨1, "alice", "hi"⟩, false⟩} ∧
    apply (invert ⟨⟨1, "alice", "hi"⟩, false⟩) (apply ⟨⟨1, "alice", "hi"⟩, false⟩ ∅) ≠ ∅ := by
  decide

/-- C2 (counterexample): `EMPTY` is empty, yet applying it to the empty set adds its key. -/
theorem C2_empty_changes_set :
    isEmpty EMPTY = true ∧ apply EMPTY ∅ = {key EMPTY} ∧ apply EMPTY ∅ ≠ ∅ := by
  decide

/-- C2 (amended): for an operation with `isEmpty` true, `apply` returns the set unchanged
exactly when the set already holds the key of an add, or lacks the key of a remove. -/
theorem C2_empty_apply_eq_iff (op : ChatOTOperation) (d : Finset String)
    (h : isEmpty op = true) :
    apply op d = d ↔ (op.remove = false ∧ key op ∈ d) ∨ (op.remove = true ∧ key op ∉ d) := by
  obtain ⟨m, r⟩ := op
  cases r
  · simp [apply]
  · simp [apply]

/-- Witness for `C2_empty_apply_eq_iff`: `EMPTY` on the set that holds its key. -/
theorem C2_empty_apply_eq_iff_witness :
    isEmpty EMPTY = true ∧
    (apply EMPTY {key EMPTY} = {key EMPTY} ↔
      (EMPTY.remove = false ∧ key EMPTY ∈ ({key EMPTY} : Finset String)) ∨
      (EMPTY.remove = true ∧ key EMPTY ∉ ({key EMPTY} : Finset String))) :=
  ⟨by decide, C2_empty_apply_eq_iff EMPTY {key EMPTY} (by decide)⟩

/-- C3: applying an operation twice in a row gives the same set as applying it once. -/
theorem C3_apply_idempotent (op : ChatOTOperation) (d : Finset String) :
    apply op (apply op d) = apply op d := by
  obtain ⟨m, r⟩ := op
  cases r
  · simp [apply]
  · simp [apply]

/-- C4: a set built from the empty set by any sequence of operations never holds both the
key of `(m, remove = false)` and the key of `(m, remove = true)`. -/
theorem C4_never_both_keys (ops : List ChatOTOperation) (m : ChatMessage) :
    ¬ (key ⟨m, false⟩ ∈ applyAll ops ∅ ∧ key ⟨m, true⟩ ∈ applyAll ops ∅) := by
  rintro ⟨-, h⟩
  obtain ⟨m', hm'⟩ := applyAll_keys ops ∅ (by simp) _ h
  exact key_add_ne_key_remove m' m hm'.symm

end Chat.ChatOTOperation

namespace Editor

/-- Replacing one entry of a list changes the count of a predicate by what the old and the
new entry contribute. -/
theorem countP_set_entry {α : Type} (p : α → Bool) (l : List α) (k : Nat) (a b : α)
    (h : l[k]? = some a) :
    (l.set k b).countP p + (if p a then 1 else 0) = l.countP p + (if p b then 1 else 0) := by
  induction l generalizing k with
  | nil => simp at h
  | cons x rest ih =>
    cases k with
    | zero =>
      simp only [List.getElem?_cons_zero, Option.some.injEq] at h
      subst h
      simp only [List.set_cons_zero, List.countP_cons]
      omega
    | succ k =>
      simp only [List.getElem?_cons_succ] at h
      have := ih k h
      simp only [List.set_cons_succ, List.countP_cons]
      omega

/-- A list of numbers that are at most one sums to at most its length. -/
theorem sum_le_length (l : List Nat) (h : ∀ n ∈ l, n ≤ 1) : l.sum ≤ l.length := by
  induction l with
  | nil => simp
  | cons x rest ih =>
    have h1 := h x (List.mem_cons_self _ _)
    have h2 := ih (fun n hn => h n (List.mem_cons_of_mem _ hn))
    simp only [List.sum_cons, List.length_cons]
    omega

end Editor

namespace Editor.EditorService

variable {M G : Type}

theorem perform_fields (I : OTStateManager M) (call : Edit) (s : EditorService M G) :
    (perform I call s).1.chains = s.chains ∧
    (perform I call s).1.loops = s.loops ∧
    (perform I call s).1._syncInterval = s._syncInterval ∧
    (perform I call s).1._reconnectTimeout = s._reconnectTimeout ∧
    (perform I call s).1.pendingGraphs = s.pendingGraphs ∧
    (perform I call s).1.syncCalls = s.syncCalls ∧
    (perform I call s).1.checkoutCalls = s.checkoutCalls := by
  cases call <;> simp only [perform, insert, delete, replace, _applyOperations] <;>
    split <;> simp [setState]

theorem loopsOk_set (loops : List SyncLoop) (i : Nat) (b : SyncLoop) (h : LoopsOk loops)
    (hb : b.pendingSyncs = (if b.syncing then 1 else 0)) : LoopsOk (loops.set i b) := by
  intro l hl
  rcases List.mem_or_eq_of_mem_set hl with h1 | h1
  · exact h l h1
  · rw [h1]; exact hb

theorem loopsOk_clearInterval (handle : Option Nat) (loops : List SyncLoop)
    (h : LoopsOk loops) : LoopsOk (clearInterval handle loops) := by
  unfold clearInterval
  split
  · split
    · rename_i l hl
      exact loopsOk_set _ _ _ h (h l (List.getElem?_mem hl))
    · exact h
  · exact h

theorem loopsOk_step (I : OTStateManager M) (s : EditorService M G) (e : Event M G)
    (h : LoopsOk s.loops) : LoopsOk (step I s e).loops := by
  cases e with
  | init => exact h
  | stop => exact loopsOk_clearInterval _ _ h
  | edit call =>
    simp only [step, (perform_fields I call s).2.1]
    exact h
  | checkoutResolved chain =>
    simp only [step]
    split
    · intro l hl
      simp only [init_afterCheckout, setState, List.mem_append, List.mem_singleton] at hl
      rcases hl with h1 | h1
      · exact h l h1
      · rw [h1]; rfl
    · exact h
  | checkoutRejected chain err =>
    simp only [step]
    split <;> exact h
  | reconnectFired chain =>
    simp only [step]
    split <;> exact h
  | tick loop =>
    simp only [step]
    split
    · simp only [intervalCallback]
      split
      · exact h
      · rename_i l hl
        split
        · exact h
        · rename_i hs
          have h0 := h l (List.getElem?_mem hl)
          simp only [hs, Bool.false_eq_true, if_false] at h0
          exact loopsOk_set _ _ _ h (by simp [h0])
    · exact h
  | syncResolved loop =>
    simp only [step]
    split
    · simp only [intervalCallback_afterSync]
      split
      · exact h
      · rename_i l hl
        have h0 := h l (List.getElem?_mem hl)
        have h1 : l.pendingSyncs - 1 = 0 := by split at h0 <;> omega
        exact loopsOk_set _ _ _ h (by simp [h1])
    · exact h
  | syncRejected loop err =>
    simp only [step]
    split
    · simp only [intervalCallback_afterSync]
      split
      · exact h
      · rename_i l hl
        have h0 := h l (List.getElem?_mem hl)
        have h1 : l.pendingSyncs - 1 = 0 := by split at h0 <;> omega
        exact loopsOk_set _ _ _ h (by simp [h1])
    · exact h
  | graphResolved index g =>
    simp only [step, intervalCallback_afterGraph]
    split
    · split <;> exact h
    · exact h
  | graphRejected index err =>
    simp only [step, intervalCallback_afterGraph]
    split <;> exact h
  | managerChanged m => exact h

theorem loopsOk_run (I : OTStateManager M) (events : List (Event M G)) (s : EditorService M G)
    (h : LoopsOk s.loops) : LoopsOk (run I s events).loops := by
  induction events generalizing s with
  | nil => exact h
  | cons e rest ih => exact ih (step I s e) (loopsOk_step I s e h)

theorem clearTimeout_length (handle : Option Nat) (chains : List InitChain) :
    (clearTimeout handle chains).length = chains.length := by
  unfold clearTimeout
  split
  · split <;> simp
  · rfl

theorem clearTimeout_countP (handle : Option Nat) (chains : List InitChain) :
    (clearTimeout handle chains).countP InitChain.isFinished
      = chains.countP InitChain.isFinished := by
  unfold clearTimeout
  split
  · split
    · rename_i hk
      have := countP_set_entry InitChain.isFinished chains _ _
        (InitChain.awaitingReconnect false) hk
      simpa [InitChain.isFinished] using this
    · rfl
  · rfl

theorem clearInterval_length (handle : Option Nat) (loops : List SyncLoop) :
    (clearInterval handle loops).length = loops.length := by
  unfold clearInterval
  split
  · split <;> simp
  · rfl

/-- Bookkeeping of chains and loops along one event: a chain is added exactly by a call of
`init()` by the user, there is one loop for each chain that has returned, and
`_syncInterval` holds the handle of the loop registered last. -/
theorem bookkeeping_step (I : OTStateManager M) (s : EditorService M G) (e : Event M G)
    (h1 : s.loops.length = s.chains.countP InitChain.isFinished)
    (h2 : ∀ n, s.loops.length = n + 1 → s._syncInterval = some n) :
    (step I s e).chains.length = s.chains.length + (if isInit e then 1 else 0) ∧
    (step I s e).loops.length = (step I s e).chains.countP InitChain.isFinished ∧
    (∀ n, (step I s e).loops.length = n + 1 → (step I s e)._syncInterval = some n) := by
  cases e with
  | init =>
    refine ⟨by simp [step, init, isInit], ?_, h2⟩
    simp [step, init, List.countP_append, InitChain.isFinished, h1]
  | stop =>
    refine ⟨by simp [step, stop, isInit, clearTimeout_length], ?_, ?_⟩
    · simp [step, stop, clearTimeout_countP, clearInterval_length, h1]
    · intro n hn
      simp only [step, stop, clearInterval_length] at hn ⊢
      exact h2 n hn
  | edit call =>
    obtain ⟨f1, f2, f3, -⟩ := perform_fields I call s
    simp only [step, f1, f2, f3, isInit]
    exact ⟨by simp, h1, h2⟩
  | checkoutResolved chain =>
    simp only [step]
    split
    · rename_i hk
      have hc := countP_set_entry InitChain.isFinished s.chains chain _ InitChain.finished hk
      simp only [InitChain.isFinished, Bool.false_eq_true, if_false, if_true,
        Nat.add_zero] at hc
      refine ⟨by simp [init_afterCheckout, setState, isInit], ?_, ?_⟩
      · simp [init_afterCheckout, setState, hc, h1]
      · intro n hn
        simp only [init_afterCheckout, setState, List.length_append, List.length_singleton,
          Nat.add_right_cancel_iff] at hn ⊢
        rw [hn]
    · exact ⟨by simp [isInit], h1, h2⟩
  | checkoutRejected chain err =>
    simp only [step]
    split
    · rename_i hk
      have hc := countP_set_entry InitChain.isFinished s.chains chain _
        (InitChain.awaitingReconnect true) hk
      simp only [InitChain.isFinished, Bool.false_eq_true, if_false, Nat.add_zero] at hc
      refine ⟨by simp [init_afterCheckoutFailed, _reconnectDelay, isInit], ?_, ?_⟩
      · simp [init_afterCheckoutFailed, _reconnectDelay, hc, h1]
      · exact h2
    · exact ⟨by simp [isInit], h1, h2⟩
  | reconnectFired chain =>
    simp only [step]
    split
    · rename_i hk
      have hc := countP_set_entry InitChain.isFinished s.chains chain _
        InitChain.awaitingCheckout hk
      simp only [InitChain.isFinished, Bool.false_eq_true, if_false, Nat.add_zero] at hc
      refine ⟨by simp [init_afterReconnectDelay, isInit], ?_, ?_⟩
      · simp [init_afterReconnectDelay, hc, h1]
      · exact h2
    · exact ⟨by simp [isInit], h1, h2⟩
  | tick loop =>
    simp only [step]
    split
    · simp only [intervalCallback]
      split
      · exact ⟨by simp [isInit], h1, h2⟩
      · split
        · exact ⟨by simp [isInit], h1, h2⟩
        · refine ⟨by simp [isInit], by simpa using h1, ?_⟩
          intro n hn
          simp only [List.length_set] at hn
          exact h2 n hn
    · exact ⟨by simp [isInit], h1, h2⟩
  | syncResolved loop =>
    simp only [step]
    split
    · simp only [intervalCallback_afterSync]
      split
      · exact ⟨by simp [isInit], h1, h2⟩
      · refine ⟨by simp [isInit, setState], by simpa [setState] using h1, ?_⟩
        intro n hn
        simp only [setState, List.length_set] at hn ⊢
        exact h2 n hn
    · exact ⟨by simp [isInit], h1, h2⟩
  | syncRejected loop err =>
    simp only [step]
    split
    · simp only [intervalCallback_afterSync]
      split
      · exact ⟨by simp [isInit], h1, h2⟩
      · refine ⟨by simp [isInit], by simpa using h1, ?_⟩
        intro n hn
        simp only [List.length_set] at hn
        exact h2 n hn
    · exact ⟨by simp [isInit], h1, h2⟩
  | graphResolved index g =>
    simp only [step, intervalCallback_afterGraph]
    split
    · split
      · exact ⟨by simp [isInit, setState], h1, h2⟩
      · exact ⟨by simp [isInit], h1, h2⟩
    · exact ⟨by simp [isInit], h1, h2⟩
  | graphRejected index err =>
    simp only [step, intervalCallback_afterGraph]
    split
    · exact ⟨by simp [isInit], h1, h2⟩
    · exact ⟨by simp [isInit], h1, h2⟩
  | managerChanged m => exact ⟨by simp [step, isInit], h1, h2⟩

theorem bookkeeping_run (I : OTStateManager M) (events : List (Event M G))
    (s : EditorService M G)
    (h1 : s.loops.length = s.chains.countP InitChain.isFinished)
    (h2 : ∀ n, s.loops.length = n + 1 → s._syncInterval = some n) :
    (run I s events).chains.length = s.chains.length + initCalls events ∧
    (run I s events).loops.length = (run I s events).chains.countP InitChain.isFinished ∧
    (∀ n, (run I s events).loops.length = n + 1 → (run I s events)._syncInterval = some n) := by
  induction events generalizing s with
  | nil => exact ⟨by simp [run, initCalls], h1, h2⟩
  | cons e rest ih =>
    obtain ⟨k1, k2, k3⟩ := bookkeeping_step I s e h1 h2
    obtain ⟨j1, j2, j3⟩ := ih (step I s e) k2 k3
    refine ⟨?_, j2, j3⟩
    have hrun : run I s (e :: rest) = run I (step I s e) rest := rfl
    rw [hrun, j1, k1]
    simp only [initCalls, List.countP_cons]
    omega

/-- The number of `sync()` calls in flight is at most the number of loops. -/
theorem outstandingSyncs_le_loops (s : EditorService M G) (h : LoopsOk s.loops) :
    outstandingSyncs s ≤ s.loops.length := by
  have := sum_le_length (s.loops.map SyncLoop.pendingSyncs) (by
    intro n hn
    obtain ⟨l, hl, rfl⟩ := List.mem_map.mp hn
    have := h l hl
    split at this <;> omega)
  simpa [outstandingSyncs] using this

theorem clearTimeout_finished (handle : Option Nat) (chains : List InitChain)
    (h : ∀ c ∈ chains, c = InitChain.finished) : clearTimeout handle chains = chains := by
  unfold clearTimeout
  split
  · split
    · rename_i hk
      exact absurd (h _ (List.getElem?_mem hk)) (by simp)
    · rfl
  · rfl

theorem clearInterval_disarmed (handle : Option Nat) (loops : List SyncLoop)
    (h : ∀ l ∈ loops, l.armed = false) : ∀ l ∈ clearInterval handle loops, l.armed = false := by
  unfold clearInterval
  split
  · split
    · intro l hl
      rcases List.mem_or_eq_of_mem_set hl with h1 | h1
      · exact h l h1
      · rw [h1]
    · exact h
  · exact h

/-- Once every chain of `init()` calls has returned and every interval is cleared, an event
other than a new call of `init()` keeps it so, and calls neither `sync()` nor
`checkout()`. -/
theorem quiet_step (I : OTStateManager M) (s : EditorService M G) (e : Event M G)
    (h : Quiet s) (he : isInit e = false) :
    Quiet (step I s e) ∧ (step I s e).syncCalls = s.syncCalls ∧
      (step I s e).checkoutCalls = s.checkoutCalls := by
  obtain ⟨hc, hl⟩ := h
  cases e with
  | init => simp [isInit] at he
  | stop =>
    refine ⟨⟨?_, ?_⟩, rfl, rfl⟩
    · simp only [step, stop, clearTimeout_finished _ _ hc]
      exact hc
    · exact clearInterval_disarmed _ _ hl
  | edit call =>
    obtain ⟨f1, f2, -, -, -, f6, f7⟩ := perform_fields I call s
    simp only [step, Quiet, f1, f2, f6, f7]
    exact ⟨⟨hc, hl⟩, trivial, trivial⟩
  | checkoutResolved chain =>
    simp only [step]
    split
    · rename_i hk
      exact absurd (hc _ (List.getElem?_mem hk)) (by simp)
    · exact ⟨⟨hc, hl⟩, rfl, rfl⟩
  | checkoutRejected chain err =>
    simp only [step]
    split
    · rename_i hk
      exact absurd (hc _ (List.getElem?_mem hk)) (by simp)
    · exact ⟨⟨hc, hl⟩, rfl, rfl⟩
  | reconnectFired chain =>
    simp only [step]
    split
    · rename_i hk
      exact absurd (hc _ (List.getElem?_mem hk)) (by simp)
    · exact ⟨⟨hc, hl⟩, rfl, rfl⟩
  | tick loop =>
    simp only [step]
    split
    · rename_i ha
      simp only [armedOf] at ha
      split at ha
      · rename_i l hk
        rw [hl l (List.getElem?_mem hk)] at ha
        exact absurd ha (by simp)
      · exact absurd ha (by simp)
    · exact ⟨⟨hc, hl⟩, rfl, rfl⟩
  | syncResolved loop =>
    simp only [step]
    split
    · simp only [intervalCallback_afterSync]
      split
      · exact ⟨⟨hc, hl⟩, rfl, rfl⟩
      · rename_i l hk
        refine ⟨⟨hc, ?_⟩, rfl, rfl⟩
        intro x hx
        simp only [setState] at hx
        rcases List.mem_or_eq_of_mem_set hx with h1 | h1
        · exact hl x h1
        · rw [h1]; exact hl l (List.getElem?_mem hk)
    · exact ⟨⟨hc, hl⟩, rfl, rfl⟩
  | syncRejected loop err =>
    simp only [step]
    split
    · simp only [intervalCallback_afterSync]
      split
      · exact ⟨⟨hc, hl⟩, rfl, rfl⟩
      · rename_i l hk
        refine ⟨⟨hc, ?_⟩, rfl, rfl⟩
        intro x hx
        rcases List.mem_or_eq_of_mem_set hx with h1 | h1
        · exact hl x h1
        · rw [h1]; exact hl l (List.getElem?_mem hk)
    · exact ⟨⟨hc, hl⟩, rfl, rfl⟩
  | graphResolved index g =>
    simp only [step, intervalCallback_afterGraph]
    split
    · split <;> exact ⟨⟨hc, hl⟩, rfl, rfl⟩
    · exact ⟨⟨hc, hl⟩, rfl, rfl⟩
  | graphRejected index err =>
    simp only [step, intervalCallback_afterGraph]
    split <;> exact ⟨⟨hc, hl⟩, rfl, rfl⟩
  | managerChanged m => exact ⟨⟨hc, hl⟩, rfl, rfl⟩

theorem quiet_run (I : OTStateManager M) (events : List (Event M G)) (s : EditorService M G)
    (h : Quiet s) (he : initCalls events = 0) :
    Quiet (run I s events) ∧ (run I s events).syncCalls = s.syncCalls ∧
      (run I s events).checkoutCalls = s.checkoutCalls := by
  induction events generalizing s with
  | nil => exact ⟨h, rfl, rfl⟩
  | cons e rest ih =>
    have he1 : isInit e = false := by
      cases hi : isInit e
      · rfl
      · simp [initCalls, List.countP_cons, hi] at he
    have he2 : initCalls rest = 0 := by
      simp only [initCalls, List.countP_cons, he1] at he
      simpa [initCalls] using he
    obtain ⟨h1, h2, h3⟩ := quiet_step I s e h he1
    obtain ⟨k1, k2, k3⟩ := ih (step I s e) h1 he2
    exact ⟨k1, k2.trans h2, k3.trans h3⟩

/-- The `getGraph` call numbered `k` stays in flight, with the revision it was made for,
through every event other than its own completion. -/
theorem pendingGraphs_step (I : OTStateManager M) (s : EditorService M G) (e : Event M G)
    (k r : Nat) (he : completesGraph k e = false)
    (hk : s.pendingGraphs[k]? = some (some r)) :
    (step I s e).pendingGraphs[k]? = some (some r) := by
  have hlt : k < s.pendingGraphs.length := by
    by_contra hge
    rw [List.getElem?_eq_none (by omega)] at hk
    exact absurd hk (by simp)
  cases e with
  | edit call =>
    simp only [step, (perform_fields I call s).2.2.2.2.1]
    exact hk
  | syncResolved loop =>
    simp only [step]
    split
    · simp only [intervalCallback_afterSync]
      split
      · exact hk
      · simp only [setState]
        rw [List.getElem?_append_left hlt]
        exact hk
    · exact hk
  | syncRejected loop err =>
    simp only [step]
    split
    · simp only [intervalCallback_afterSync]
      split <;> exact hk
    · exact hk
  | graphResolved index g =>
    have hne : index ≠ k := by simpa [completesGraph] using he
    simp only [step, intervalCallback_afterGraph]
    split
    · split
      · simp only [setState]
        rw [List.getElem?_set_ne hne]
        exact hk
      · simp only []
        rw [List.getElem?_set_ne hne]
        exact hk
    · exact hk
  | graphRejected index err =>
    have hne : index ≠ k := by simpa [completesGraph] using he
    simp only [step, intervalCallback_afterGraph]
    split
    · simp only []
      rw [List.getElem?_set_ne hne]
      exact hk
    · exact hk
  | init => exact hk
  | stop => exact hk
  | checkoutResolved chain =>
    simp only [step]
    split <;> exact hk
  | checkoutRejected chain err =>
    simp only [step]
    split <;> exact hk
  | reconnectFired chain =>
    simp only [step]
    split <;> exact hk
  | tick loop =>
    simp only [step]
    split
    · simp only [intervalCallback]
      split
      · exact hk
      · split <;> exact hk
    · exact hk
  | managerChanged m => exact hk

theorem pendingGraphs_run (I : OTStateManager M) (events : List (Event M G))
    (s : EditorService M G) (k r : Nat) (he : ∀ e ∈ events, completesGraph k e = false)
    (hk : s.pendingGraphs[k]? = some (some r)) :
    (run I s events).pendingGraphs[k]? = some (some r) := by
  induction events generalizing s with
  | nil => exact hk
  | cons e rest ih =>
    exact ih (step I s e) (fun x hx => he x (List.mem_cons_of_mem _ hx))
      (pendingGraphs_step I s e k r (he e (List.mem_cons_self _ _)) hk)

/-- What the completion of a `getGraph` call does to `commitsGraph`, for a call in flight
that was made for `revision`. -/
theorem afterGraph_commitsGraph (I : OTStateManager M) (s : EditorService M G) (index : Nat)
    (revision : Nat) (g : G) (h : s.pendingGraphs[index]? = some (some revision)) :
    (step I s (Event.graphResolved index g)).state.commitsGraph =
      if revision = I.getRevision s._editorOTStateManager then some g
      else s.state.commitsGraph := by
  simp only [step, intervalCallback_afterGraph, h]
  split <;> simp [setState]

theorem isFinished_eq (c : InitChain) (h : c.isFinished = true) : c = InitChain.finished := by
  cases c <;> simp_all [InitChain.isFinished]

/-- Two calls of `init()` register two loops, each with its own `syncing`, and each loop
has its own `sync()` in flight after one tick of each. -/
theorem two_init_calls_two_loops :
    outstandingSyncs (run textManager (new ⟨"abc", 0, []⟩ : EditorService TextManager String)
      [Event.init, Event.init, Event.checkoutResolved 0, Event.checkoutResolved 1,
        Event.tick 0, Event.tick 1]) = 2 := by
  decide

/-- C5: in every run from a new service and for every sync loop in it, at most one `sync()`
of the loop is outstanding, and a tick of the loop that fires while one is outstanding
leaves the service as it is: `sync()` is not called.  Over all loops, the `sync()` calls
outstanding are at most as many as the calls of `init()` the user has made, so with one
call of `init()` no two are outstanding at once. -/
theorem C5_sync_never_overlaps (I : OTStateManager M) (m0 : M) (events : List (Event M G)) :
    (∀ loop, pendingSyncsOf (run I (new m0) events) loop ≤ 1) ∧
    (∀ loop, 0 < pendingSyncsOf (run I (new m0) events) loop →
      step I (run I (new m0) events) (Event.tick loop) = run I (new m0) events) ∧
    outstandingSyncs (run I (new m0) events) ≤ initCalls events := by
  have hok : LoopsOk (run I (new m0) events).loops :=
    loopsOk_run I events (new m0) (by simp [LoopsOk, new])
  obtain ⟨b1, b2, -⟩ := bookkeeping_run I events (new m0) (by simp [new]) (by simp [new])
  refine ⟨?_, ?_, ?_⟩
  · intro loop
    simp only [pendingSyncsOf]
    split
    · rename_i l hl
      have := hok l (List.getElem?_mem hl)
      split at this <;> omega
    · omega
  · intro loop hpos
    simp only [pendingSyncsOf] at hpos
    split at hpos
    · rename_i l hl
      have h0 := hok l (List.getElem?_mem hl)
      have hs : l.syncing = true := by
        by_contra hne
        simp [hne] at h0
        omega
      simp only [step, intervalCallback, hl, hs, if_true]
      split <;> rfl
    · omega
  · have h1 := outstandingSyncs_le_loops _ hok
    have h2 : (run I (new m0) events).chains.countP InitChain.isFinished
        ≤ (run I (new m0) events).chains.length := List.countP_le_length _
    have hb0 : (new m0 : EditorService M G).chains.length = 0 := rfl
    rw [hb0, Nat.zero_add] at b1
    omega

/-- Witness for `C5_sync_never_overlaps`: after `init()`, a successful `checkout()` and one
tick, a `sync()` is outstanding and the next tick changes nothing. -/
theorem C5_sync_never_overlaps_witness :
    0 < pendingSyncsOf (run textManager (new ⟨"abc", 0, []⟩ : EditorService TextManager String)
      [Event.init, Event.checkoutResolved 0, Event.tick 0]) 0 ∧
    step textManager (run textManager (new ⟨"abc", 0, []⟩ : EditorService TextManager String)
      [Event.init, Event.checkoutResolved 0, Event.tick 0]) (Event.tick 0)
    = run textManager (new ⟨"abc", 0, []⟩ : EditorService TextManager String)
      [Event.init, Event.checkoutResolved 0, Event.tick 0] :=
  ⟨by decide, (C5_sync_never_overlaps textManager ⟨"abc", 0, []⟩
    [Event.init, Event.checkoutResolved 0, Event.tick 0]).2.1 0 (by decide)⟩

/-- C6 (counterexample): on the document `abc` the manager rejects `Delete(5, "xyz")` with
an `OutOfRangeError`, and the call `delete(5, "xyz")` still completes normally. -/
theorem C6_delete_completes_normally :
    (textManager.add ⟨"abc", 0, []⟩ [Operation.DeleteOperation 5 "xyz"]).2
      = Except.error OTError.OutOfRangeError ∧
    (delete textManager 5 "xyz" (new ⟨"abc", 0, []⟩ : EditorService TextManager String)).2
      = Completion.normal () :=
  ⟨rfl, rfl⟩

/-- C6 (amended): when `add()` fails, the promise returned by `_applyOperations` is rejected
with that failure, the call of `insert`, `delete` or `replace` completes normally, and
nothing is published: the state object and the number of `setState` calls are as
before. -/
theorem C6_add_failure_rejects_promise (I : OTStateManager M) (s : EditorService M G)
    (call : Edit) (err : OTError)
    (h : (I.add s._editorOTStateManager (operationsOf call)).2 = Except.error err) :
    (_applyOperations I (operationsOf call) s).2 = Promise.rejected err ∧
    (perform I call s).1 = (_applyOperations I (operationsOf call) s).1 ∧
    (perform I call s).2 = Completion.normal () ∧
    (perform I call s).1.state = s.state ∧
    (perform I call s).1.setStateCalls = s.setStateCalls := by
  cases call <;>
    simp only [operationsOf] at h <;>
    simp [perform, insert, delete, replace, operationsOf, _applyOperations, h]

/-- Witness for `C6_add_failure_rejects_promise`: `delete(5, "xyz")` on the document `abc`. -/
theorem C6_add_failure_rejects_promise_witness :
    (textManager.add (new ⟨"abc", 0, []⟩ : EditorService TextManager String)._editorOTStateManager
      (operationsOf (Edit.delete 5 "xyz"))).2 = Except.error OTError.OutOfRangeError ∧
    (perform textManager (Edit.delete 5 "xyz")
      (new ⟨"abc", 0, []⟩ : EditorService TextManager String)).2 = Completion.normal () :=
  ⟨rfl, (C6_add_failure_rejects_promise textManager
    (new ⟨"abc", 0, []⟩ : EditorService TextManager String) (Edit.delete 5 "xyz")
    OTError.OutOfRangeError rfl).2.2.1⟩

/-- C7 (counterexample): `stop()` while `checkout()` is in flight, then `checkout()` succeeds:
`setState` is called after `stop()` and the interval is running.  And `stop()` while
`sync()` is in flight, then `sync()` succeeds: `setState` is called after `stop()`. -/
theorem C7_completion_after_stop_publishes :
    (run textManager (new ⟨"abc", 0, []⟩ : EditorService TextManager String)
      [Event.init]).chains = [InitChain.awaitingCheckout] ∧
    (run textManager (new ⟨"abc", 0, []⟩ : EditorService TextManager String)
      [Event.init, Event.stop]).setStateCalls = 0 ∧
    (run textManager (new ⟨"abc", 0, []⟩ : EditorService TextManager String)
      [Event.init, Event.stop, Event.checkoutResolved 0]).setStateCalls = 1 ∧
    armedOf (run textManager (new ⟨"abc", 0, []⟩ : EditorService TextManager String)
      [Event.init, Event.stop, Event.checkoutResolved 0]) 0 = true ∧
    pendingSyncsOf (run textManager (new ⟨"abc", 0, []⟩ : EditorService TextManager String)
      [Event.init, Event.checkoutResolved 0, Event.tick 0]) 0 = 1 ∧
    (run textManager (new ⟨"abc", 0, []⟩ : EditorService TextManager String)
      [Event.init, Event.checkoutResolved 0, Event.tick 0, Event.stop]).setStateCalls = 1 ∧
    (run textManager (new ⟨"abc", 0, []⟩ : EditorService TextManager String)
      [Event.init, Event.checkoutResolved 0, Event.tick 0, Event.stop,
        Event.syncResolved 0]).setStateCalls = 2 := by
  decide

/-- C7 (amended): in a run in which the user has called `init()` once, when `stop()` is called
while a `sync()` is in flight, then whatever happens afterwards short of a new call of
`init()`, no interval is running and no further `sync()` or `checkout()` is called. -/
theorem C7_stop_ends_sync_loop (I : OTStateManager M) (m0 : M)
    (before after : List (Event M G))
    (hb : initCalls before ≤ 1) (ha : initCalls after = 0)
    (h : 0 < outstandingSyncs (run I (new m0) before)) :
    (∀ l ∈ (run I (stop (run I (new m0) before)) after).loops, l.armed = false) ∧
    (run I (stop (run I (new m0) before)) after).syncCalls
      = (run I (new m0) before).syncCalls ∧
    (run I (stop (run I (new m0) before)) after).checkoutCalls
      = (run I (new m0) before).checkoutCalls := by
  have hok : LoopsOk (run I (new m0) before).loops :=
    loopsOk_run I before (new m0) (by simp [LoopsOk, new])
  obtain ⟨b1, b2, b3⟩ := bookkeeping_run I before (new m0) (by simp [new]) (by simp [new])
  have h1 := outstandingSyncs_le_loops _ hok
  have h2 : (run I (new m0) before).chains.countP InitChain.isFinished
      ≤ (run I (new m0) before).chains.length := List.countP_le_length _
  have hb0 : (new m0 : EditorService M G).chains.length = 0 := rfl
  rw [hb0, Nat.zero_add] at b1
  have hlen : (run I (new m0) before).loops.length = 1 := by omega
  have hall : ∀ c ∈ (run I (new m0) before).chains, c = InitChain.finished := by
    have hc : (run I (new m0) before).chains.countP InitChain.isFinished
        = (run I (new m0) before).chains.length := by omega
    intro c hcm
    exact isFinished_eq c (List.countP_eq_length.mp hc c hcm)
  have hsi := b3 0 hlen
  obtain ⟨l0, hl0⟩ := List.length_eq_one.mp hlen
  have hq : Quiet (stop (run I (new m0) before)) := by
    refine ⟨?_, ?_⟩
    · simp only [stop, clearTimeout_finished _ _ hall]
      exact hall
    · simp [stop, clearInterval, hl0, hsi]
  obtain ⟨k1, k2, k3⟩ := quiet_run I after _ hq ha
  exact ⟨k1.2, k2, k3⟩

/-- Witness for `C7_stop_ends_sync_loop`: `stop()` with a `sync()` in flight, which then
succeeds, followed by a tick. -/
theorem C7_stop_ends_sync_loop_witness :
    initCalls ([Event.init, Event.checkoutResolved 0, Event.tick 0] :
      List (Event TextManager String)) ≤ 1 ∧
    initCalls ([Event.syncResolved 0, Event.tick 0] : List (Event TextManager String)) = 0 ∧
    0 < outstandingSyncs (run textManager (new ⟨"abc", 0, []⟩ : EditorService TextManager String)
      [Event.init, Event.checkoutResolved 0, Event.tick 0]) ∧
    (run textManager (stop (run textManager (new ⟨"abc", 0, []⟩ : EditorService TextManager String)
      [Event.init, Event.checkoutResolved 0, Event.tick 0]))
      [Event.syncResolved 0, Event.tick 0]).syncCalls = 1 :=
  ⟨by decide, by decide, by decide, ((C7_stop_ends_sync_loop textManager ⟨"abc", 0, []⟩
    [Event.init, Event.checkoutResolved 0, Event.tick 0] [Event.syncResolved 0, Event.tick 0]
    (by decide) (by decide) (by decide)).2.1).trans (by decide)⟩

/-- C8: when a `sync()` succeeds, `getGraph` is called with the revision `r` the manager
reports at that moment.  Whatever happens until that query completes, its completion
publishes the returned graph when the manager then still reports `r`, and leaves
`commitsGraph` as it is when the manager reports another revision. -/
theorem C8_graph_published_iff_revision_unchanged (I : OTStateManager M)
    (s : EditorService M G) (loop : Nat) (events : List (Event M G)) (g : G)
    (h : 0 < s.pendingSyncsOf loop)
    (he : ∀ e ∈ events, completesGraph s.pendingGraphs.length e = false) :
    (step I s (Event.syncResolved loop)).graphCalls
      = s.graphCalls ++ [I.getRevision s._editorOTStateManager] ∧
    (I.getRevision (run I (step I s (Event.syncResolved loop)) events)._editorOTStateManager
        = I.getRevision s._editorOTStateManager →
      (step I (run I (step I s (Event.syncResolved loop)) events)
        (Event.graphResolved s.pendingGraphs.length g)).state.commitsGraph = some g) ∧
    (I.getRevision (run I (step I s (Event.syncResolved loop)) events)._editorOTStateManager
        ≠ I.getRevision s._editorOTStateManager →
      (step I (run I (step I s (Event.syncResolved loop)) events)
        (Event.graphResolved s.pendingGraphs.length g)).state.commitsGraph
      = (run I (step I s (Event.syncResolved loop)) events).state.commitsGraph) := by
  obtain ⟨l, hl⟩ : ∃ l, s.loops[loop]? = some l := by
    simp only [pendingSyncsOf] at h
    split at h
    · exact ⟨_, by assumption⟩
    · omega
  have h0 : (step I s (Event.syncResolved loop)).pendingGraphs[s.pendingGraphs.length]?
      = some (some (I.getRevision s._editorOTStateManager)) := by
    simp [step, h, hl, intervalCallback_afterSync, setState]
  have hget := pendingGraphs_run I events (step I s (Event.syncResolved loop)) _ _ he h0
  have hg := afterGraph_commitsGraph I _ _ _ g hget
  refine ⟨by simp [step, h, hl, intervalCallback_afterSync, setState], ?_, ?_⟩
  · intro heq
    rw [hg, if_pos heq.symm]
  · intro hne
    rw [hg, if_neg (fun e => hne e.symm)]

/-- Witness for `C8_graph_published_iff_revision_unchanged`: a `sync()` succeeds at revision
`0`, the manager moves to revision `1`, and the graph query then completes. -/
theorem C8_graph_published_iff_revision_unchanged_witness :
    0 < pendingSyncsOf (run textManager (new ⟨"abc", 0, []⟩ : EditorService TextManager String)
      [Event.init, Event.checkoutResolved 0, Event.tick 0]) 0 ∧
    (∀ e ∈ [(Event.managerChanged ⟨"abc", 1, []⟩ : Event TextManager String)],
      completesGraph (run textManager (new ⟨"abc", 0, []⟩ : EditorService TextManager String)
        [Event.init, Event.checkoutResolved 0, Event.tick 0]).pendingGraphs.length e = false) ∧
    (step textManager (run textManager (step textManager
        (run textManager (new ⟨"abc", 0, []⟩ : EditorService TextManager String)
          [Event.init, Event.checkoutResolved 0, Event.tick 0]) (Event.syncResolved 0))
        [Event.managerChanged ⟨"abc", 1, []⟩])
      (Event.graphResolved (run textManager
        (new ⟨"abc", 0, []⟩ : EditorService TextManager String)
        [Event.init, Event.checkoutResolved 0, Event.tick 0]).pendingGraphs.length
        "graph")).state.commitsGraph = none :=
  ⟨by decide, by simp [completesGraph],
    ((C8_graph_published_iff_revision_unchanged textManager
      (run textManager (new ⟨"abc", 0, []⟩ : EditorService TextManager String)
        [Event.init, Event.checkoutResolved 0, Event.tick 0]) 0
      [Event.managerChanged ⟨"abc", 1, []⟩] "graph" (by decide)
      (by simp [completesGraph])).2.2 (by decide)).trans (by decide)⟩

/-- C9: when the outstanding `sync()` of a tick fails, nothing is published (the state
object and the number of `setState` calls are as before, and no graph query is
started), the loop's `syncing` is cleared, and the next tick of the loop calls `sync()`
again. -/
theorem C9_failed_sync_is_retried (I : OTStateManager M) (s : EditorService M G)
    (loop : Nat) (err : OTError) (h : 0 < s.pendingSyncsOf loop)
    (hi : s.armedOf loop = true) :
    (step I s (Event.syncRejected loop err)).syncingOf loop = false ∧
    (step I s (Event.syncRejected loop err)).state = s.state ∧
    (step I s (Event.syncRejected loop err)).setStateCalls = s.setStateCalls ∧
    (step I s (Event.syncRejected loop err)).graphCalls = s.graphCalls ∧
    (step I (step I s (Event.syncRejected loop err)) (Event.tick loop)).syncCalls
      = s.syncCalls + 1 := by
  obtain ⟨l, hl⟩ : ∃ l, s.loops[loop]? = some l := by
    simp only [pendingSyncsOf] at h
    split at h
    · exact ⟨_, by assumption⟩
    · omega
  have hlt : loop < s.loops.length := by
    by_contra hge
    rw [List.getElem?_eq_none (by omega)] at hl
    exact absurd hl (by simp)
  have ha : l.armed = true := by simpa [armedOf, hl] using hi
  simp [step, h, hl, hlt, ha, intervalCallback_afterSync, intervalCallback, syncingOf, armedOf]

/-- Witness for `C9_failed_sync_is_retried`: the first tick after a successful `checkout()`,
whose `sync()` fails with a transport error. -/
theorem C9_failed_sync_is_retried_witness :
    0 < pendingSyncsOf (run textManager (new ⟨"abc", 0, []⟩ : EditorService TextManager String)
      [Event.init, Event.checkoutResolved 0, Event.tick 0]) 0 ∧
    armedOf (run textManager (new ⟨"abc", 0, []⟩ : EditorService TextManager String)
      [Event.init, Event.checkoutResolved 0, Event.tick 0]) 0 = true ∧
    syncingOf (step textManager (run textManager (new ⟨"abc", 0, []⟩ : EditorService TextManager String)
      [Event.init, Event.checkoutResolved 0, Event.tick 0])
      (Event.syncRejected 0 OTError.TransportError)) 0 = false :=
  ⟨by decide, by decide, (C9_failed_sync_is_retried textManager
    (run textManager (new ⟨"abc", 0, []⟩ : EditorService TextManager String)
      [Event.init, Event.checkoutResolved 0, Event.tick 0])
    0 OTError.TransportError (by decide) (by decide)).1⟩

/-- C10: `replace(position, oldContent, newContent)` makes exactly one call of `add()`, on
the manager as it stands, with the sequence
`[Delete(position, oldContent), Insert(position, newContent)]`: the call is logged once,
the manager afterwards is the manager that call leaves, and the content published is
that manager's state when the call returned, and the former content when it threw. -/
theorem C10_replace_adds_delete_then_insert (I : OTStateManager M) (s : EditorService M G)
    (position : Nat) (oldContent newContent : String) :
    (replace I position oldContent newContent s).1.addCalls
      = s.addCalls ++ [[Operation.DeleteOperation position oldContent,
          Operation.InsertOperation position newContent]] ∧
    (replace I position oldContent newContent s).1._editorOTStateManager
      = (I.add s._editorOTStateManager [Operation.DeleteOperation position oldContent,
          Operation.InsertOperation position newContent]).1 ∧
    (replace I position oldContent newContent s).1.state.content
      = (match (I.add s._editorOTStateManager [Operation.DeleteOperation position oldContent,
          Operation.InsertOperation position newContent]).2 with
        | Except.ok _ => I.getState (I.add s._editorOTStateManager
            [Operation.DeleteOperation position oldContent,
              Operation.InsertOperation position newContent]).1
        | Except.error _ => s.state.content) := by
  simp only [replace, _applyOperations]
  split <;> simp_all [setState]

end Editor.EditorService
